import Mathlib

/-!
Verification of the `clock_discipliner` engine
(`ncmv_projects/clock_discipliner/clock_discipliner.h`).

The engine is a single-threaded state machine: on every external tick it
reads the local clock, computes a raw offset (source minus local, in
nanoseconds), folds the offset into an EWMA filter, and at most once per
local-clock second decides a correction (STEP for large filtered offsets,
SLEW otherwise) against the system clock.

Modelling conventions:
* Machine `int64_t` / `uint64_t` arithmetic is embedded over `Int` / `Nat`
  with explicit two's-complement wrapping (`wrap64`, `u64ofInt`) at exactly
  the points where the C code performs fixed-width operations.
* C's truncating division and remainder on `int64_t` are `c_div` / `c_mod`.
* The single IEEE-double expression in `update_ewma`,
  `(int64_t)((1.0 - ewma_alpha) * E + ewma_alpha * R)`, is embedded twice:
  `update_ewma` idealises it as exact real arithmetic `(4*E + R) / 5`
  followed by the truncating cast (adequate for the control-flow, reset
  and rate-limiting properties, which do not depend on rounding), while
  `fp_ewma_step` models the IEEE binary64 evaluation bit-accurately
  (value conversion, two correctly rounded multiplications, one correctly
  rounded addition, round to nearest, ties to even) for the quantitative
  filter properties, where double rounding is observable.
* The two `clock_gettime` reads, and the success of `clock_settime` /
  `clock_adjtime`, are external inputs, bundled per tick in `TickInput`.
* Side effects (the clock-write system calls and the `printf` / `perror`
  log lines) are recorded as an ordered list of `DEvent` values.
-/

namespace ClockDiscipliner

/-- Modulus of 64-bit machine words. -/
def INT64_MOD : Int := 2 ^ 64

/-- Magnitude of the most negative `int64_t`. -/
def INT64_HALF : Int := 2 ^ 63

/-- Two's-complement wrap of an integer into the `int64_t` range
`[-2^63, 2^63)`. -/
def wrap64 (n : Int) : Int := (n + INT64_HALF) % INT64_MOD - INT64_HALF

/-- Conversion of a signed machine value to `uint64_t` (reduction mod 2^64),
as performed by the C implicit conversions in `on_time_source_tick`. -/
def u64ofInt (n : Int) : Nat := (n % INT64_MOD).toNat

/-- C99 signed integer division: quotient truncated toward zero. -/
def c_div (a b : Int) : Int := if 0 ≤ a then a / b else -((-a) / b)

/-- C99 signed remainder: `a - b * (a / b)` with the quotient truncated
toward zero, so the result carries the dividend's sign. -/
def c_mod (a b : Int) : Int := a - b * c_div a b

/-- A `struct timespec` as returned by `clock_gettime(CLOCK_REALTIME, ...)`.
Both fields are signed machine integers in the source (`time_t`, `long`). -/
structure Timespec where
  tv_sec : Int
  tv_nsec : Int
deriving DecidableEq

/-- The private state of the `clock_discipliner` class: the filtered offset
`ewma_offset_ns`, the monotonically increasing `sample_count`, and the local
second `last_discipline_sec` at which a correction was last attempted.
(The remaining member, `ewma_alpha`, is a `const` equal to 0.2 and is
embedded as the rational constant `ewma_alpha` below.) -/
structure DiscState where
  ewma_offset_ns : Int
  sample_count : Int
  last_discipline_sec : Int
deriving DecidableEq

/-- The constructor `clock_discipliner()` zero-initialises every member. -/
def initState : DiscState :=
  { ewma_offset_ns := 0, sample_count := 0, last_discipline_sec := 0 }

/-- The source's `const double ewma_alpha = 0.2`, idealised as the exact
rational 1/5. -/
def ewma_alpha : ℚ := 1 / 5

/-- Observable side effects of one tick, in program order:
the `[discipline]` log line, the `clock_settime` call with its target
`timespec`, the `clock_adjtime` call with its microsecond offset, and the
success / failure log lines of either branch. -/
inductive DEvent where
  | disciplineLog (filtered_offset_ns : Int)
  | stepWrite (target : Timespec)
  | stepOkLog (stepped_by_ns : Int)
  | stepFailLog
  | slewRequest (offset_us : Int)
  | slewOkLog (slewed_by_ns : Int)
  | slewFailLog
deriving DecidableEq

/-- External inputs consumed by one call to `on_time_source_tick`: the
`timespec` of the entry `clock_gettime`, the `timespec` of the second
`clock_gettime` inside `step_clock` (relevant only when the STEP branch
runs), and the success of the `clock_settime` / `clock_adjtime` calls
(relevant only to logging). -/
structure TickInput where
  ts : Timespec
  step_ts : Timespec
  step_ok : Bool
  slew_ok : Bool

/-- Source `update_ewma`, with the double expression idealised as exact
real arithmetic: on the very first sample the estimate is assigned the raw
offset directly; afterwards the estimate becomes the C cast to `int64_t`
of `0.8 * estimate + 0.2 * offset` (`(4*E + R)/5`, truncated toward
zero). `sample_count` increments unconditionally. The bit-accurate
binary64 version of the same source line is `fp_update_ewma` below. -/
def update_ewma (s : DiscState) (offset_ns : Int) : DiscState :=
  if s.sample_count = 0 then
    { s with ewma_offset_ns := offset_ns, sample_count := s.sample_count + 1 }
  else
    { s with ewma_offset_ns := c_div (4 * s.ewma_offset_ns + offset_ns) 5,
             sample_count := s.sample_count + 1 }

/-- Source `step_clock`: reads the clock again (`ts`), forms the target
`new_ns = tv_sec * 1e9 + tv_nsec + ewma_offset_ns` in `int64_t` arithmetic,
splits it into a `timespec` with C truncating `/` and `%`, issues
`clock_settime`, logs success or failure, and unconditionally resets
`ewma_offset_ns` to zero. -/
def step_clock (s : DiscState) (ts : Timespec) (settime_ok : Bool) :
    DiscState × List DEvent :=
  let new_ns := wrap64 (ts.tv_sec * 1000000000 + ts.tv_nsec + s.ewma_offset_ns)
  let new_ts : Timespec :=
    { tv_sec := c_div new_ns 1000000000, tv_nsec := c_mod new_ns 1000000000 }
  let log := if settime_ok then DEvent.stepOkLog s.ewma_offset_ns
             else DEvent.stepFailLog
  ({ s with ewma_offset_ns := 0 }, [DEvent.stepWrite new_ts, log])

/-- Source `slew_clock`: submits `ewma_offset_ns / 1000` microseconds via
`clock_adjtime` and logs; the state is not modified. -/
def slew_clock (s : DiscState) (adjtime_ok : Bool) : DiscState × List DEvent :=
  let off_us := c_div s.ewma_offset_ns 1000
  let log := if adjtime_ok then DEvent.slewOkLog s.ewma_offset_ns
             else DEvent.slewFailLog
  (s, [DEvent.slewRequest off_us, log])

/-- Source `discipline_if_needed`: returns immediately when the current
local second equals `last_discipline_sec`; otherwise records the current
second, logs the filtered offset, and branches on
`|ewma_offset_ns| > 3000000` between `step_clock` and `slew_clock`. -/
def discipline_if_needed (s : DiscState) (current_sec : Int)
    (step_ts : Timespec) (step_ok adjtime_ok : Bool) :
    DiscState × List DEvent :=
  if current_sec = s.last_discipline_sec then (s, [])
  else
    let s1 := { s with last_discipline_sec := current_sec }
    let abs_offset_ns :=
      if 0 ≤ s1.ewma_offset_ns then s1.ewma_offset_ns else -s1.ewma_offset_ns
    let r := if 3 * 1000000 < abs_offset_ns then step_clock s1 step_ts step_ok
             else slew_clock s1 adjtime_ok
    (r.fst, DEvent.disciplineLog s1.ewma_offset_ns :: r.snd)

/-- The raw offset computed at the top of `on_time_source_tick`:
`system_time_ms = tv_sec * 1000ULL + tv_nsec / 1000000ULL` in `uint64_t`
arithmetic, `offset_ms = (int64_t)time_source_ms - (int64_t)system_time_ms`,
and `offset_ns = offset_ms * 1000000LL`, each in wrapping 64-bit
arithmetic. -/
def raw_offset_ns (time_source_ms : Nat) (ts : Timespec) : Int :=
  let system_time_ms : Nat :=
    (u64ofInt ts.tv_sec * 1000 + u64ofInt ts.tv_nsec / 1000000) % 2 ^ 64
  let offset_ms := wrap64 (wrap64 time_source_ms - wrap64 system_time_ms)
  wrap64 (offset_ms * 1000000)

/-- Source `on_time_source_tick`: reads the clock, computes the raw offset,
updates the filter, then runs the discipline decision for the current
local second. -/
def on_time_source_tick (s : DiscState) (time_source_ms : Nat)
    (inp : TickInput) : DiscState × List DEvent :=
  let s1 := update_ewma s (raw_offset_ns time_source_ms inp.ts)
  discipline_if_needed s1 inp.ts.tv_sec inp.step_ts inp.step_ok inp.slew_ok

/-- Number of discipline decisions recorded in an event list: each run of
the decision body emits exactly one `[discipline]` log line. -/
def countDecisions (evs : List DEvent) : Nat :=
  (evs.filter fun e => match e with
    | DEvent.disciplineLog _ => true
    | _ => false).length

/-- Floor of the base-2 logarithm, computed with explicit recursion fuel
so that the kernel can evaluate it; `log2f_spec` below proves it correct
for every argument below `2 ^ fuel`. -/
def log2f : Nat → Nat → Nat
  | 0, _ => 0
  | f + 1, n => if 2 ≤ n then log2f f (n / 2) + 1 else 0

/-- Fuel used for `log2f` inside the binary64 model: every mantissa the
engine's pipeline can produce is far below `2 ^ 256`. -/
def FP_FUEL : Nat := 256

/-- A finite IEEE binary64 value, represented as a signed integer
significand times a power of two: the value denoted is `m * 2 ^ e`. -/
structure Fp where
  m : Int
  e : Int
deriving DecidableEq

/-- The exact rational value denoted by an `Fp`. -/
def fval (x : Fp) : ℚ := (x.m : ℚ) * (2 : ℚ) ^ x.e

/-- Number of low bits dropped when rounding the magnitude `s` to 53
significant bits. -/
def shift53 (s : Nat) : Nat := log2f FP_FUEL s - 52

/-- Rounding of the magnitude `s` to 53 significant bits, to nearest,
ties to even: the IEEE binary64 significand rounding. -/
def round53 (s : Nat) : Nat :=
  let k := shift53 s
  let low := s / 2 ^ k
  let rem := s % 2 ^ k
  let half := 2 ^ (k - 1)
  if rem < half then low
  else if half < rem then low + 1
  else if low % 2 = 0 then low else low + 1

/-- Correct rounding of `m * 2 ^ e` to a binary64 value (round to
nearest, ties to even); exact when the significand already fits in 53
bits. Exponent overflow and subnormals are outside the engine's range
and are not modelled. -/
def fpNorm (m : Int) (e : Int) : Fp :=
  if m.natAbs < 2 ^ 53 then ⟨m, e⟩
  else if 0 ≤ m then ⟨(round53 m.natAbs : Int), e + (shift53 m.natAbs : Int)⟩
  else ⟨-(round53 m.natAbs : Int), e + (shift53 m.natAbs : Int)⟩

/-- The C conversion of an `int64_t` to `double`: correctly rounded. -/
def fpOfInt (n : Int) : Fp := fpNorm n 0

/-- IEEE binary64 multiplication: exact product, then one rounding. -/
def fpMul (x y : Fp) : Fp := fpNorm (x.m * y.m) (x.e + y.e)

/-- IEEE binary64 addition: operands aligned exactly, then one rounding. -/
def fpAdd (x y : Fp) : Fp :=
  if x.e ≤ y.e then fpNorm (x.m + y.m * 2 ^ (y.e - x.e).toNat) x.e
  else fpNorm (x.m * 2 ^ (x.e - y.e).toNat + y.m) y.e

/-- IEEE binary64 subtraction, as addition of the negation. -/
def fpSub (x y : Fp) : Fp := fpAdd x ⟨-y.m, y.e⟩

/-- The C cast `(int64_t)` applied to a binary64 value: truncation toward
zero. -/
def fpTruncToInt (x : Fp) : Int :=
  if 0 ≤ x.e then x.m * 2 ^ x.e.toNat else c_div x.m (2 ^ (-x.e).toNat)

/-- The binary64 value of the source literal `0.2` initialising
`ewma_alpha`: 3602879701896397 * 2^-54, the double nearest to 1/5 (it
differs from 1/5 by 1/(5 * 2^54), less than half an ulp). -/
def fp_alpha : Fp := ⟨3602879701896397, -54⟩

/-- The binary64 value of the literal `1.0`. -/
def fp_one : Fp := ⟨1, 0⟩

/-- The runtime subtraction `1.0 - ewma_alpha` evaluated in binary64. -/
def fp_one_minus_alpha : Fp := fpSub fp_one fp_alpha

/-- Bit-accurate model of the source's else-branch expression
`(int64_t)((1.0 - ewma_alpha) * ewma_offset_ns + ewma_alpha * offset_ns)`:
both `int64_t` operands are converted to `double`, each product and the
sum are correctly rounded, and the result is truncated toward zero. -/
def fp_ewma_step (E R : Int) : Int :=
  fpTruncToInt (fpAdd (fpMul fp_one_minus_alpha (fpOfInt E))
                      (fpMul fp_alpha (fpOfInt R)))

/-- Source `update_ewma` with the double expression modelled bit-accurately
(`fp_ewma_step`) instead of idealised; the cold-start branch is the same
exact integer assignment in both embeddings. -/
def fp_update_ewma (s : DiscState) (offset_ns : Int) : DiscState :=
  if s.sample_count = 0 then
    { s with ewma_offset_ns := offset_ns, sample_count := s.sample_count + 1 }
  else
    { s with ewma_offset_ns := fp_ewma_step s.ewma_offset_ns offset_ns,
             sample_count := s.sample_count + 1 }

/-! Helper lemmas about the embedded operations. -/

lemma cond_abs (e : Int) : (if 0 ≤ e then e else -e) = |e| := by
  rcases le_or_lt 0 e with h | h
  · rw [if_pos h, abs_of_nonneg h]
  · rw [if_neg (not_le.mpr h), abs_of_neg h]

lemma update_ewma_last (s : DiscState) (o : Int) :
    (update_ewma s o).last_discipline_sec = s.last_discipline_sec := by
  unfold update_ewma
  split <;> rfl

lemma update_ewma_count (s : DiscState) (o : Int) :
    (update_ewma s o).sample_count = s.sample_count + 1 := by
  unfold update_ewma
  split <;> rfl

lemma step_clock_fst (s : DiscState) (ts : Timespec) (ok : Bool) :
    (step_clock s ts ok).fst = { s with ewma_offset_ns := 0 } := rfl

lemma slew_clock_fst (s : DiscState) (ok : Bool) : (slew_clock s ok).fst = s := rfl

lemma discipline_skip (s : DiscState) (c : Int) (sts : Timespec) (o1 o2 : Bool)
    (h : c = s.last_discipline_sec) :
    discipline_if_needed s c sts o1 o2 = (s, []) := by
  unfold discipline_if_needed
  rw [if_pos h]

end ClockDiscipliner

namespace ClockDiscipliner

lemma discipline_run_step (s : DiscState) (c : Int) (sts : Timespec) (o1 o2 : Bool)
    (h : c ≠ s.last_discipline_sec) (hb : 3 * 1000000 < |s.ewma_offset_ns|) :
    discipline_if_needed s c sts o1 o2 =
      ({ s with last_discipline_sec := c, ewma_offset_ns := 0 },
       DEvent.disciplineLog s.ewma_offset_ns ::
         (step_clock { s with last_discipline_sec := c } sts o1).snd) := by
  unfold discipline_if_needed
  rw [if_neg h]
  simp only [cond_abs]
  rw [if_pos hb, step_clock_fst]

lemma discipline_run_slew (s : DiscState) (c : Int) (sts : Timespec) (o1 o2 : Bool)
    (h : c ≠ s.last_discipline_sec) (hb : ¬ 3 * 1000000 < |s.ewma_offset_ns|) :
    discipline_if_needed s c sts o1 o2 =
      ({ s with last_discipline_sec := c },
       DEvent.disciplineLog s.ewma_offset_ns ::
         (slew_clock { s with last_discipline_sec := c } o2).snd) := by
  unfold discipline_if_needed
  rw [if_neg h]
  simp only [cond_abs]
  rw [if_neg hb]
  rw [slew_clock_fst]

lemma step_clock_snd (s : DiscState) (ts : Timespec) (ok : Bool) :
    (step_clock s ts ok).snd =
      [DEvent.stepWrite
        { tv_sec := c_div (wrap64 (ts.tv_sec * 1000000000 + ts.tv_nsec + s.ewma_offset_ns)) 1000000000,
          tv_nsec := c_mod (wrap64 (ts.tv_sec * 1000000000 + ts.tv_nsec + s.ewma_offset_ns)) 1000000000 },
       if ok then DEvent.stepOkLog s.ewma_offset_ns else DEvent.stepFailLog] := rfl

lemma slew_clock_snd (s : DiscState) (ok : Bool) :
    (slew_clock s ok).snd =
      [DEvent.slewRequest (c_div s.ewma_offset_ns 1000),
       if ok then DEvent.slewOkLog s.ewma_offset_ns else DEvent.slewFailLog] := rfl

lemma tick_skip (s : DiscState) (t : Nat) (inp : TickInput)
    (h : inp.ts.tv_sec = s.last_discipline_sec) :
    on_time_source_tick s t inp = (update_ewma s (raw_offset_ns t inp.ts), []) := by
  unfold on_time_source_tick
  exact discipline_skip _ _ _ _ _ (h.trans (update_ewma_last s _).symm)

lemma tick_last (s : DiscState) (t : Nat) (inp : TickInput) :
    (on_time_source_tick s t inp).fst.last_discipline_sec = inp.ts.tv_sec := by
  by_cases h : inp.ts.tv_sec = (update_ewma s (raw_offset_ns t inp.ts)).last_discipline_sec
  · unfold on_time_source_tick
    rw [discipline_skip _ _ _ _ _ h]
    exact h.symm
  · unfold on_time_source_tick
    by_cases hb : 3 * 1000000 < |(update_ewma s (raw_offset_ns t inp.ts)).ewma_offset_ns|
    · rw [discipline_run_step _ _ _ _ inp.slew_ok h hb]
    · rw [discipline_run_slew _ _ _ inp.step_ok _ h hb]

lemma tick_count (s : DiscState) (t : Nat) (inp : TickInput) :
    (on_time_source_tick s t inp).fst.sample_count = s.sample_count + 1 := by
  rw [← update_ewma_count s (raw_offset_ns t inp.ts)]
  set s1 := update_ewma s (raw_offset_ns t inp.ts) with hs1
  by_cases h : inp.ts.tv_sec = s1.last_discipline_sec
  · unfold on_time_source_tick
    rw [discipline_skip _ _ _ _ _ h]
  · unfold on_time_source_tick
    by_cases hb : 3 * 1000000 < |s1.ewma_offset_ns|
    · rw [discipline_run_step _ _ _ _ inp.slew_ok h hb]
    · rw [discipline_run_slew _ _ _ inp.step_ok _ h hb]

lemma countDecisions_step_snd (s : DiscState) (ts : Timespec) (ok : Bool) :
    countDecisions (step_clock s ts ok).snd = 0 := by
  rw [step_clock_snd]
  cases ok <;> rfl

lemma countDecisions_slew_snd (s : DiscState) (ok : Bool) :
    countDecisions (slew_clock s ok).snd = 0 := by
  rw [slew_clock_snd]
  cases ok <;> rfl

lemma countDecisions_cons_log (e : Int) (l : List DEvent) :
    countDecisions (DEvent.disciplineLog e :: l) = countDecisions l + 1 := by
  unfold countDecisions
  rw [List.filter_cons_of_pos]
  · rfl
  · rfl

lemma countDecisions_tick_le (s : DiscState) (t : Nat) (inp : TickInput) :
    countDecisions (on_time_source_tick s t inp).snd ≤ 1 := by
  set s1 := update_ewma s (raw_offset_ns t inp.ts) with hs1
  by_cases h : inp.ts.tv_sec = s1.last_discipline_sec
  · rw [tick_skip s t inp (h.trans (update_ewma_last s _))]
    exact Nat.zero_le 1
  · unfold on_time_source_tick
    by_cases hb : 3 * 1000000 < |s1.ewma_offset_ns|
    · rw [discipline_run_step _ _ _ _ inp.slew_ok h hb]
      simp only [countDecisions_cons_log, countDecisions_step_snd]
      exact le_refl 1
    · rw [discipline_run_slew _ _ _ inp.step_ok _ h hb]
      simp only [countDecisions_cons_log, countDecisions_slew_snd]
      exact le_refl 1

lemma cold_start0 (s : DiscState) (X : Int) (h : s.sample_count = 0) :
    (update_ewma s X).ewma_offset_ns = X := by
  unfold update_ewma
  rw [if_pos h]

/-! Lemmas for the binary64 model: each rounding step is within half an
ulp, hence within a relative error of 2^-53, and the final cast is within
1 ns. -/

lemma log2f_spec (f : Nat) : ∀ n : Nat, 1 ≤ n → n < 2 ^ f →
    2 ^ log2f f n ≤ n ∧ n < 2 ^ (log2f f n + 1) := by
  induction f with
  | zero =>
    intro n h1 h2
    omega
  | succ f ih =>
    intro n h1 h2
    by_cases h : 2 ≤ n
    · have hrec := ih (n / 2) (by omega) (by
        have hp : 2 ^ (f + 1) = 2 * 2 ^ f := by ring
        omega)
      unfold log2f
      rw [if_pos h]
      obtain ⟨hl, hr⟩ := hrec
      constructor
      · have : 2 ^ (log2f f (n / 2) + 1) = 2 * 2 ^ log2f f (n / 2) := by ring
        omega
      · have : 2 ^ (log2f f (n / 2) + 1 + 1) = 2 * 2 ^ (log2f f (n / 2) + 1) := by ring
        omega
    · unfold log2f
      rw [if_neg h]
      constructor
      · simpa using h1
      · simpa using (by omega : n < 2)

lemma shift53_pos (s : Nat) (h53 : 2 ^ 53 ≤ s) (h256 : s < 2 ^ 256) :
    1 ≤ shift53 s ∧ 52 + shift53 s = log2f FP_FUEL s := by
  obtain ⟨hl, hr⟩ := log2f_spec FP_FUEL s (by omega) (by exact h256)
  have h53L : 53 ≤ log2f FP_FUEL s := by
    by_contra hc
    have : log2f FP_FUEL s + 1 ≤ 53 := by omega
    have : 2 ^ (log2f FP_FUEL s + 1) ≤ 2 ^ 53 := Nat.pow_le_pow_right (by norm_num) this
    omega
  unfold shift53
  omega

lemma round53_err (s : Nat) (h53 : 2 ^ 53 ≤ s) (h256 : s < 2 ^ 256) :
    (round53 s * 2 ^ shift53 s ≤ s + 2 ^ (shift53 s - 1) ∧
     s ≤ round53 s * 2 ^ shift53 s + 2 ^ (shift53 s - 1)) ∧
    2 ^ (52 + shift53 s) ≤ s ∧ round53 s ≤ 2 ^ 53 := by
  obtain ⟨hk1, hkL⟩ := shift53_pos s h53 h256
  obtain ⟨hl, hr⟩ := log2f_spec FP_FUEL s (by omega) (by exact h256)
  have hsl : 2 ^ (52 + shift53 s) ≤ s := by rw [hkL]; exact hl
  have hsr : s < 2 ^ (52 + shift53 s + 1) := by rw [hkL]; exact hr
  have hdm : s / 2 ^ shift53 s * 2 ^ shift53 s + s % 2 ^ shift53 s = s := by
    rw [Nat.mul_comm]
    exact Nat.div_add_mod s (2 ^ shift53 s)
  have hsucc : (s / 2 ^ shift53 s + 1) * 2 ^ shift53 s
      = s / 2 ^ shift53 s * 2 ^ shift53 s + 2 ^ shift53 s := by ring
  have hrem : s % 2 ^ shift53 s < 2 ^ shift53 s := Nat.mod_lt s (by positivity)
  have hpw : 2 ^ shift53 s = 2 * 2 ^ (shift53 s - 1) := by
    rw [← pow_succ']
    congr 1
    omega
  have hlow : s / 2 ^ shift53 s < 2 ^ 53 := by
    rw [Nat.div_lt_iff_lt_mul (by positivity)]
    calc s < 2 ^ (52 + shift53 s + 1) := hsr
    _ = 2 ^ 53 * 2 ^ shift53 s := by rw [← pow_add]; congr 1; omega
  refine ⟨⟨?_, ?_⟩, hsl, ?_⟩ <;>
    (simp only [round53, shift53] at *
     split
     · omega
     · split
       · omega
       · split <;> omega)

lemma fpNorm_m_bound (m : Int) (e : Int) (hm : m.natAbs < 2 ^ 256) :
    (fpNorm m e).m.natAbs ≤ 2 ^ 53 := by
  unfold fpNorm
  split
  · exact le_of_lt (by assumption)
  · have h53 : 2 ^ 53 ≤ m.natAbs := by omega
    have hr := (round53_err m.natAbs h53 hm).2.2
    split
    · simpa using hr
    · simpa using hr

lemma fpNorm_e_le (m : Int) (e : Int) (B : Nat) (hm : m.natAbs < 2 ^ B)
    (hB53 : 53 ≤ B) (hB : B ≤ 256) :
    e ≤ (fpNorm m e).e ∧ (fpNorm m e).e ≤ e + ((B : Int) - 53) := by
  unfold fpNorm
  split
  · refine ⟨?_, ?_⟩ <;> (simp only []; omega)
  · have h53 : 2 ^ 53 ≤ m.natAbs := by omega
    have h256 : m.natAbs < 2 ^ 256 :=
      lt_of_lt_of_le hm (Nat.pow_le_pow_right (by norm_num) hB)
    obtain ⟨hl, _⟩ := log2f_spec FP_FUEL m.natAbs (by omega) h256
    have hLB : log2f FP_FUEL m.natAbs < B := by
      by_contra hc
      have hle : 2 ^ B ≤ 2 ^ log2f FP_FUEL m.natAbs :=
        Nat.pow_le_pow_right (by norm_num) (by omega)
      omega
    have hkB : (shift53 m.natAbs : Int) ≤ (B : Int) - 53 := by
      unfold shift53
      omega
    split
    · refine ⟨?_, ?_⟩ <;> (simp only []; omega)
    · refine ⟨?_, ?_⟩ <;> (simp only []; omega)

lemma fpNorm_err_mag (s : Nat) (e : Int) (h53 : 2 ^ 53 ≤ s) (h256 : s < 2 ^ 256) :
    |(round53 s : ℚ) * (2 : ℚ) ^ (e + (shift53 s : Int)) - (s : ℚ) * (2 : ℚ) ^ e|
      ≤ (s : ℚ) * (2 : ℚ) ^ e / 2 ^ 53 := by
  obtain ⟨⟨hA, hB⟩, hC, _⟩ := round53_err s h53 h256
  obtain ⟨hk1, _⟩ := shift53_pos s h53 h256
  have hAq : (round53 s : ℚ) * 2 ^ shift53 s ≤ (s : ℚ) + 2 ^ (shift53 s - 1) := by
    exact_mod_cast hA
  have hBq : (s : ℚ) ≤ (round53 s : ℚ) * 2 ^ shift53 s + 2 ^ (shift53 s - 1) := by
    exact_mod_cast hB
  have hCn : 2 ^ 53 * 2 ^ (shift53 s - 1) ≤ s := by
    calc 2 ^ 53 * 2 ^ (shift53 s - 1) = 2 ^ (53 + (shift53 s - 1)) := (pow_add 2 53 _).symm
    _ = 2 ^ (52 + shift53 s) := by congr 1; omega
    _ ≤ s := hC
  have hCq : ((2 : ℚ) ^ (shift53 s - 1)) ≤ (s : ℚ) / 2 ^ 53 := by
    rw [le_div_iff₀ (by positivity)]
    calc (2 : ℚ) ^ (shift53 s - 1) * 2 ^ 53 = 2 ^ 53 * 2 ^ (shift53 s - 1) := by ring
    _ ≤ (s : ℚ) := by exact_mod_cast hCn
  have hzp : (2 : ℚ) ^ (e + (shift53 s : Int)) = (2 : ℚ) ^ e * (2 : ℚ) ^ shift53 s := by
    rw [zpow_add₀ (by norm_num : (2 : ℚ) ≠ 0), zpow_natCast]
  have hpos : (0 : ℚ) < (2 : ℚ) ^ e := by positivity
  have hcore : |(round53 s : ℚ) * 2 ^ shift53 s - (s : ℚ)| ≤ 2 ^ (shift53 s - 1) := by
    rw [abs_le]
    constructor <;> linarith
  calc |(round53 s : ℚ) * (2 : ℚ) ^ (e + (shift53 s : Int)) - (s : ℚ) * (2 : ℚ) ^ e|
      = |((round53 s : ℚ) * 2 ^ shift53 s - (s : ℚ)) * (2 : ℚ) ^ e| := by
        rw [hzp]; ring_nf
    _ = |(round53 s : ℚ) * 2 ^ shift53 s - (s : ℚ)| * (2 : ℚ) ^ e := by
        rw [abs_mul, abs_of_pos hpos]
    _ ≤ 2 ^ (shift53 s - 1) * (2 : ℚ) ^ e := by
        exact mul_le_mul_of_nonneg_right hcore (le_of_lt hpos)
    _ ≤ (s : ℚ) / 2 ^ 53 * (2 : ℚ) ^ e := by
        exact mul_le_mul_of_nonneg_right hCq (le_of_lt hpos)
    _ = (s : ℚ) * (2 : ℚ) ^ e / 2 ^ 53 := by ring

lemma fpNorm_err (m : Int) (e : Int) (hm : m.natAbs < 2 ^ 256) :
    |fval (fpNorm m e) - (m : ℚ) * (2 : ℚ) ^ e|
      ≤ |(m : ℚ)| * (2 : ℚ) ^ e / 2 ^ 53 := by
  have hmnabs : ((m.natAbs : ℚ)) = |(m : ℚ)| := by
    rw [Int.cast_natAbs, Int.cast_abs]
  unfold fpNorm
  split
  · simp only [fval]
    rw [sub_self, abs_zero]
    positivity
  · have h53 : 2 ^ 53 ≤ m.natAbs := by omega
    split
    · rename_i hpos
      have habs : |(m : ℚ)| = (m : ℚ) := abs_of_nonneg (by exact_mod_cast hpos)
      have hmag := fpNorm_err_mag m.natAbs e h53 hm
      rw [hmnabs, habs] at hmag
      simp only [fval]
      rw [habs]
      push_cast
      exact hmag
    · rename_i hnn
      have hneg : m < 0 := by omega
      have habs : |(m : ℚ)| = -(m : ℚ) := abs_of_neg (by exact_mod_cast hneg)
      have hmag := fpNorm_err_mag m.natAbs e h53 hm
      rw [hmnabs, habs] at hmag
      simp only [fval]
      have hre : ((-(round53 m.natAbs : ℤ) : ℤ) : ℚ) * (2 : ℚ) ^ (e + (shift53 m.natAbs : Int))
            - (m : ℚ) * (2 : ℚ) ^ e
          = -((round53 m.natAbs : ℚ) * (2 : ℚ) ^ (e + (shift53 m.natAbs : Int))
            - (-(m : ℚ)) * (2 : ℚ) ^ e) := by
        push_cast
        ring
      rw [hre, abs_neg, habs]
      exact hmag

lemma fpMul_arg_val (x y : Fp) :
    ((x.m * y.m : ℤ) : ℚ) * (2 : ℚ) ^ (x.e + y.e) = fval x * fval y := by
  unfold fval
  rw [zpow_add₀ (by norm_num : (2 : ℚ) ≠ 0)]
  push_cast
  ring

lemma fpMul_err (x y : Fp) (hx : x.m.natAbs ≤ 2 ^ 53) (hy : y.m.natAbs ≤ 2 ^ 53) :
    |fval (fpMul x y) - fval x * fval y| ≤ |fval x * fval y| / 2 ^ 53 := by
  have hm : (x.m * y.m).natAbs < 2 ^ 256 := by
    rw [Int.natAbs_mul]
    calc x.m.natAbs * y.m.natAbs ≤ 2 ^ 53 * 2 ^ 53 := Nat.mul_le_mul hx hy
    _ < 2 ^ 256 := by norm_num
  have h := fpNorm_err (x.m * y.m) (x.e + y.e) hm
  rw [fpMul_arg_val] at h
  unfold fpMul
  have habs : |((x.m * y.m : ℤ) : ℚ)| * (2 : ℚ) ^ (x.e + y.e) = |fval x * fval y| := by
    rw [← abs_of_pos (show (0 : ℚ) < (2 : ℚ) ^ (x.e + y.e) by positivity), ← abs_mul,
        fpMul_arg_val]
  rw [habs] at h
  exact h

lemma fpAdd_arg_val_le (x y : Fp) (h : x.e ≤ y.e) :
    ((x.m + y.m * 2 ^ (y.e - x.e).toNat : ℤ) : ℚ) * (2 : ℚ) ^ x.e = fval x + fval y := by
  unfold fval
  have ht : ((y.e - x.e).toNat : ℤ) = y.e - x.e := Int.toNat_of_nonneg (by omega)
  have hp : ((2 ^ (y.e - x.e).toNat : ℤ) : ℚ) = (2 : ℚ) ^ ((y.e - x.e).toNat : ℤ) := by
    rw [zpow_natCast]
    push_cast
    ring
  have hsplit : (2 : ℚ) ^ ((y.e - x.e).toNat : ℤ) * (2 : ℚ) ^ x.e = (2 : ℚ) ^ y.e := by
    rw [← zpow_add₀ (by norm_num : (2 : ℚ) ≠ 0), ht]
    congr 1
    ring
  push_cast
  calc ((x.m : ℚ) + (y.m : ℚ) * ((2 : ℚ) ^ (y.e - x.e).toNat)) * (2 : ℚ) ^ x.e
      = (x.m : ℚ) * (2 : ℚ) ^ x.e
        + (y.m : ℚ) * ((2 : ℚ) ^ ((y.e - x.e).toNat : ℤ) * (2 : ℚ) ^ x.e) := by
        rw [zpow_natCast]
        ring
  _ = (x.m : ℚ) * (2 : ℚ) ^ x.e + (y.m : ℚ) * (2 : ℚ) ^ y.e := by rw [hsplit]

lemma fpAdd_err (x y : Fp) (hx : x.m.natAbs ≤ 2 ^ 53) (hy : y.m.natAbs ≤ 2 ^ 53)
    (hd1 : y.e - x.e ≤ 100) (hd2 : x.e - y.e ≤ 100) :
    |fval (fpAdd x y) - (fval x + fval y)| ≤ |fval x + fval y| / 2 ^ 53 := by
  unfold fpAdd
  split
  · rename_i hle
    have hm : (x.m + y.m * 2 ^ (y.e - x.e).toNat).natAbs < 2 ^ 256 := by
      have h1 : (y.m * 2 ^ (y.e - x.e).toNat).natAbs ≤ 2 ^ 53 * 2 ^ 100 := by
        rw [Int.natAbs_mul]
        have h2 : (2 ^ (y.e - x.e).toNat : ℤ).natAbs = 2 ^ (y.e - x.e).toNat := by
          rw [Int.natAbs_pow]
          rfl
        rw [h2]
        exact Nat.mul_le_mul hy (Nat.pow_le_pow_right (by norm_num) (by omega))
      calc (x.m + y.m * 2 ^ (y.e - x.e).toNat).natAbs
          ≤ x.m.natAbs + (y.m * 2 ^ (y.e - x.e).toNat).natAbs := Int.natAbs_add_le _ _
      _ ≤ 2 ^ 53 + 2 ^ 53 * 2 ^ 100 := by omega
      _ < 2 ^ 256 := by norm_num
    have h := fpNorm_err (x.m + y.m * 2 ^ (y.e - x.e).toNat) x.e hm
    rw [fpAdd_arg_val_le x y hle] at h
    have habs : |((x.m + y.m * 2 ^ (y.e - x.e).toNat : ℤ) : ℚ)| * (2 : ℚ) ^ x.e
        = |fval x + fval y| := by
      rw [← abs_of_pos (show (0 : ℚ) < (2 : ℚ) ^ x.e by positivity), ← abs_mul,
          fpAdd_arg_val_le x y hle]
    rw [habs] at h
    exact h
  · rename_i hgt
    have hle : y.e ≤ x.e := by omega
    have hm : (x.m * 2 ^ (x.e - y.e).toNat + y.m).natAbs < 2 ^ 256 := by
      have h1 : (x.m * 2 ^ (x.e - y.e).toNat).natAbs ≤ 2 ^ 53 * 2 ^ 100 := by
        rw [Int.natAbs_mul]
        have h2 : (2 ^ (x.e - y.e).toNat : ℤ).natAbs = 2 ^ (x.e - y.e).toNat := by
          rw [Int.natAbs_pow]
          rfl
        rw [h2]
        exact Nat.mul_le_mul hx (Nat.pow_le_pow_right (by norm_num) (by omega))
      calc (x.m * 2 ^ (x.e - y.e).toNat + y.m).natAbs
          ≤ (x.m * 2 ^ (x.e - y.e).toNat).natAbs + y.m.natAbs := Int.natAbs_add_le _ _
      _ ≤ 2 ^ 53 * 2 ^ 100 + 2 ^ 53 := by omega
      _ < 2 ^ 256 := by norm_num
    have h := fpNorm_err (x.m * 2 ^ (x.e - y.e).toNat + y.m) y.e hm
    have harg : ((x.m * 2 ^ (x.e - y.e).toNat + y.m : ℤ) : ℚ) * (2 : ℚ) ^ y.e
        = fval x + fval y := by
      have := fpAdd_arg_val_le y x hle
      push_cast at this ⊢
      linarith [this]
    rw [harg] at h
    have habs : |((x.m * 2 ^ (x.e - y.e).toNat + y.m : ℤ) : ℚ)| * (2 : ℚ) ^ y.e
        = |fval x + fval y| := by
      rw [← abs_of_pos (show (0 : ℚ) < (2 : ℚ) ^ y.e by positivity), ← abs_mul, harg]
    rw [habs] at h
    exact h

lemma c_div_pow_err (a : Int) (n : Nat) :
    |(c_div a (2 ^ n) : ℚ) - (a : ℚ) / ((2 ^ n : ℕ) : ℚ)| < 1 := by
  have hd : (0 : ℤ) < 2 ^ n := by positivity
  have hq : (0 : ℚ) < ((2 ^ n : ℕ) : ℚ) := by positivity
  have key : ∀ b : Int, 0 ≤ b →
      |((b / (2 ^ n : ℤ) : ℤ) : ℚ) - (b : ℚ) / ((2 ^ n : ℕ) : ℚ)| < 1 := by
    intro b hb
    have hdm : (2 ^ n : ℤ) * (b / (2 ^ n : ℤ)) + b % (2 ^ n : ℤ) = b :=
      Int.ediv_add_emod b (2 ^ n)
    have h0 : 0 ≤ b % (2 ^ n : ℤ) := Int.emod_nonneg b (by positivity)
    have h1 : b % (2 ^ n : ℤ) < 2 ^ n := Int.emod_lt_of_pos b hd
    have hsplit : ((b / (2 ^ n : ℤ) : ℤ) : ℚ) - (b : ℚ) / ((2 ^ n : ℕ) : ℚ)
        = (((b / (2 ^ n : ℤ) : ℤ) : ℚ) * ((2 ^ n : ℕ) : ℚ) - (b : ℚ))
          / ((2 ^ n : ℕ) : ℚ) := by
      field_simp
    have hdmq : ((2 ^ n : ℤ) : ℚ) * ((b / (2 ^ n : ℤ) : ℤ) : ℚ)
        + ((b % (2 ^ n : ℤ) : ℤ) : ℚ) = (b : ℚ) := by
      exact_mod_cast hdm
    have hnum : ((b / (2 ^ n : ℤ) : ℤ) : ℚ) * ((2 ^ n : ℕ) : ℚ) - (b : ℚ)
        = -(((b % (2 ^ n : ℤ) : ℤ) : ℚ)) := by
      push_cast
      push_cast at hdmq
      linarith
    have h0q : (0 : ℚ) ≤ ((b % (2 ^ n : ℤ) : ℤ) : ℚ) := by exact_mod_cast h0
    rw [hsplit, abs_div, abs_of_pos hq, div_lt_one hq, hnum, abs_neg,
        abs_of_nonneg h0q]
    exact_mod_cast h1
  unfold c_div
  split
  · rename_i ha
    exact key a ha
  · rename_i ha
    have h := key (-a) (by omega)
    have hre : ((-(-a / (2 ^ n : ℤ)) : ℤ) : ℚ) - (a : ℚ) / ((2 ^ n : ℕ) : ℚ)
        = -(((-a / (2 ^ n : ℤ) : ℤ) : ℚ) - ((-a : ℤ) : ℚ) / ((2 ^ n : ℕ) : ℚ)) := by
      push_cast
      ring
    rw [hre, abs_neg]
    exact h

lemma fpTrunc_err (x : Fp) : |((fpTruncToInt x : ℤ) : ℚ) - fval x| < 1 := by
  unfold fpTruncToInt fval
  split
  · rename_i he
    have hcast : ((x.m * 2 ^ x.e.toNat : ℤ) : ℚ) = (x.m : ℚ) * (2 : ℚ) ^ x.e := by
      push_cast
      rw [← zpow_natCast (2 : ℚ) x.e.toNat]
      rw [show ((x.e.toNat : ℕ) : ℤ) = x.e from Int.toNat_of_nonneg he]
    rw [hcast, sub_self, abs_zero]
    norm_num
  · rename_i he
    have hzp : (2 : ℚ) ^ x.e = (((2 ^ (-x.e).toNat : ℕ) : ℚ))⁻¹ := by
      have h1 : ((-x.e).toNat : ℤ) = -x.e := Int.toNat_of_nonneg (by omega)
      have h2 : ((2 ^ (-x.e).toNat : ℕ) : ℚ) = (2 : ℚ) ^ (((-x.e).toNat : ℕ) : ℤ) := by
        rw [zpow_natCast]
        push_cast
        ring
      rw [h2, h1, ← zpow_neg]
      congr 1
      ring
    rw [hzp, ← div_eq_mul_inv]
    exact c_div_pow_err x.m (-x.e).toNat

lemma fp_alpha_val : fval fp_alpha = 3602879701896397 / 2 ^ 54 := by
  unfold fval fp_alpha
  norm_num

lemma fp_oma_val : fval fp_one_minus_alpha = 7205759403792794 / 2 ^ 53 := by
  rw [show fp_one_minus_alpha = ⟨7205759403792794, -53⟩ from by decide]
  unfold fval
  norm_num

set_option maxHeartbeats 1000000 in
lemma fp_step_err (E R : Int) (hE : E.natAbs < 2 ^ 63) (hR : R.natAbs < 2 ^ 63) :
    |((fp_ewma_step E R : ℤ) : ℚ) - ((4 / 5) * (E : ℚ) + (1 / 5) * (R : ℚ))|
      < 1 + (|(E : ℚ)| + |(R : ℚ)|) / 2 ^ 50 := by
  have hE256 : E.natAbs < 2 ^ 256 := lt_trans hE (by norm_num)
  have hR256 : R.natAbs < 2 ^ 256 := lt_trans hR (by norm_num)
  have hEm : (fpOfInt E).m.natAbs ≤ 2 ^ 53 := fpNorm_m_bound E 0 hE256
  have hRm : (fpOfInt R).m.natAbs ≤ 2 ^ 53 := fpNorm_m_bound R 0 hR256
  have hEe : (0 : ℤ) ≤ (fpOfInt E).e ∧ (fpOfInt E).e ≤ 0 + ((63 : ℤ) - 53) :=
    fpNorm_e_le E 0 63 hE (by norm_num) (by norm_num)
  have hRe : (0 : ℤ) ≤ (fpOfInt R).e ∧ (fpOfInt R).e ≤ 0 + ((63 : ℤ) - 53) :=
    fpNorm_e_le R 0 63 hR (by norm_num) (by norm_num)
  have hCm : fp_one_minus_alpha.m.natAbs ≤ 2 ^ 53 := by decide
  have hAm : fp_alpha.m.natAbs ≤ 2 ^ 53 := by decide
  have hCe : fp_one_minus_alpha.e = -53 := by decide
  have hAe : fp_alpha.e = -54 := rfl
  -- mantissa and exponent bounds of the two products
  have hbigE : (fp_one_minus_alpha.m * (fpOfInt E).m).natAbs < 2 ^ 107 := by
    rw [Int.natAbs_mul]
    calc fp_one_minus_alpha.m.natAbs * (fpOfInt E).m.natAbs
        ≤ 2 ^ 53 * 2 ^ 53 := Nat.mul_le_mul hCm hEm
    _ < 2 ^ 107 := by norm_num
  have hbigR : (fp_alpha.m * (fpOfInt R).m).natAbs < 2 ^ 107 := by
    rw [Int.natAbs_mul]
    calc fp_alpha.m.natAbs * (fpOfInt R).m.natAbs
        ≤ 2 ^ 53 * 2 ^ 53 := Nat.mul_le_mul hAm hRm
    _ < 2 ^ 107 := by norm_num
  have hP1m : (fpMul fp_one_minus_alpha (fpOfInt E)).m.natAbs ≤ 2 ^ 53 :=
    fpNorm_m_bound (fp_one_minus_alpha.m * (fpOfInt E).m)
      (fp_one_minus_alpha.e + (fpOfInt E).e) (lt_trans hbigE (by norm_num))
  have hP2m : (fpMul fp_alpha (fpOfInt R)).m.natAbs ≤ 2 ^ 53 :=
    fpNorm_m_bound (fp_alpha.m * (fpOfInt R).m)
      (fp_alpha.e + (fpOfInt R).e) (lt_trans hbigR (by norm_num))
  have hP1e : fp_one_minus_alpha.e + (fpOfInt E).e
        ≤ (fpMul fp_one_minus_alpha (fpOfInt E)).e ∧
      (fpMul fp_one_minus_alpha (fpOfInt E)).e
        ≤ fp_one_minus_alpha.e + (fpOfInt E).e + ((107 : ℤ) - 53) :=
    fpNorm_e_le (fp_one_minus_alpha.m * (fpOfInt E).m)
      (fp_one_minus_alpha.e + (fpOfInt E).e) 107 hbigE (by norm_num) (by norm_num)
  have hP2e : fp_alpha.e + (fpOfInt R).e ≤ (fpMul fp_alpha (fpOfInt R)).e ∧
      (fpMul fp_alpha (fpOfInt R)).e
        ≤ fp_alpha.e + (fpOfInt R).e + ((107 : ℤ) - 53) :=
    fpNorm_e_le (fp_alpha.m * (fpOfInt R).m)
      (fp_alpha.e + (fpOfInt R).e) 107 hbigR (by norm_num) (by norm_num)
  have hd1 : (fpMul fp_alpha (fpOfInt R)).e
      - (fpMul fp_one_minus_alpha (fpOfInt E)).e ≤ 100 := by
    obtain ⟨h1, h2⟩ := hP1e
    obtain ⟨h3, h4⟩ := hP2e
    rw [hCe] at h1 h2
    rw [hAe] at h3 h4
    omega
  have hd2 : (fpMul fp_one_minus_alpha (fpOfInt E)).e
      - (fpMul fp_alpha (fpOfInt R)).e ≤ 100 := by
    obtain ⟨h1, h2⟩ := hP1e
    obtain ⟨h3, h4⟩ := hP2e
    rw [hCe] at h1 h2
    rw [hAe] at h3 h4
    omega
  -- instantiated error bounds
  have hEv : |fval (fpOfInt E) - (E : ℚ)| ≤ |(E : ℚ)| / 2 ^ 53 := by
    have h := fpNorm_err E 0 hE256
    simpa using h
  have hRv : |fval (fpOfInt R) - (R : ℚ)| ≤ |(R : ℚ)| / 2 ^ 53 := by
    have h := fpNorm_err R 0 hR256
    simpa using h
  have hP1v := fpMul_err fp_one_minus_alpha (fpOfInt E) hCm hEm
  have hP2v := fpMul_err fp_alpha (fpOfInt R) hAm hRm
  have hSv := fpAdd_err (fpMul fp_one_minus_alpha (fpOfInt E))
    (fpMul fp_alpha (fpOfInt R)) hP1m hP2m hd1 hd2
  have htr := fpTrunc_err (fpAdd (fpMul fp_one_minus_alpha (fpOfInt E))
    (fpMul fp_alpha (fpOfInt R)))
  have hC1 : |fval fp_one_minus_alpha| ≤ 1 := by
    rw [fp_oma_val, abs_of_pos (by norm_num)]
    norm_num
  have hA1 : |fval fp_alpha| ≤ 1 := by
    rw [fp_alpha_val, abs_of_pos (by norm_num)]
    norm_num
  have hC2 : |fval fp_one_minus_alpha - 4 / 5| ≤ 1 / 2 ^ 54 := by
    rw [fp_oma_val]
    rw [abs_of_pos (by norm_num)]
    norm_num
  have hA2 : |fval fp_alpha - 1 / 5| ≤ 1 / 2 ^ 54 := by
    rw [fp_alpha_val]
    rw [abs_of_pos (by norm_num)]
    norm_num
  -- pure rational algebra from here on
  set qE := (E : ℚ) with hqE
  set qR := (R : ℚ) with hqR
  set a := fval (fpOfInt E) with ha
  set b := fval (fpOfInt R) with hb
  set c := fval fp_one_minus_alpha with hc
  set al := fval fp_alpha with hal
  set p1 := fval (fpMul fp_one_minus_alpha (fpOfInt E)) with hp1
  set p2 := fval (fpMul fp_alpha (fpOfInt R)) with hp2
  set sv := fval (fpAdd (fpMul fp_one_minus_alpha (fpOfInt E))
    (fpMul fp_alpha (fpOfInt R))) with hsv
  have hEb : |a| ≤ 2 * |qE| := by
    have h1 : |a| ≤ |a - qE| + |qE| := by
      calc |a| = |(a - qE) + qE| := by ring_nf
      _ ≤ |a - qE| + |qE| := abs_add _ _
    have h2 := abs_nonneg qE
    linarith
  have hRb : |b| ≤ 2 * |qR| := by
    have h1 : |b| ≤ |b - qR| + |qR| := by
      calc |b| = |(b - qR) + qR| := by ring_nf
      _ ≤ |b - qR| + |qR| := abs_add _ _
    have h2 := abs_nonneg qR
    linarith
  have hCE : |c * a - 4 / 5 * qE| ≤ |qE| * (3 / 2 ^ 53) := by
    have t1 : c * a - 4 / 5 * qE = c * (a - qE) + (c - 4 / 5) * qE := by ring
    have m1 : |c * (a - qE)| ≤ 1 * (|qE| / 2 ^ 53) := by
      rw [abs_mul]
      exact mul_le_mul hC1 hEv (abs_nonneg _) (by norm_num)
    have m2 : |(c - 4 / 5) * qE| ≤ (1 / 2 ^ 54) * |qE| := by
      rw [abs_mul]
      exact mul_le_mul_of_nonneg_right hC2 (abs_nonneg _)
    have t2 : |c * a - 4 / 5 * qE| ≤ |c * (a - qE)| + |(c - 4 / 5) * qE| := by
      rw [t1]
      exact abs_add _ _
    have h2 := abs_nonneg qE
    linarith
  have hAR : |al * b - 1 / 5 * qR| ≤ |qR| * (3 / 2 ^ 53) := by
    have t1 : al * b - 1 / 5 * qR = al * (b - qR) + (al - 1 / 5) * qR := by ring
    have m1 : |al * (b - qR)| ≤ 1 * (|qR| / 2 ^ 53) := by
      rw [abs_mul]
      exact mul_le_mul hA1 hRv (abs_nonneg _) (by norm_num)
    have m2 : |(al - 1 / 5) * qR| ≤ (1 / 2 ^ 54) * |qR| := by
      rw [abs_mul]
      exact mul_le_mul_of_nonneg_right hA2 (abs_nonneg _)
    have t2 : |al * b - 1 / 5 * qR| ≤ |al * (b - qR)| + |(al - 1 / 5) * qR| := by
      rw [t1]
      exact abs_add _ _
    have h2 := abs_nonneg qR
    linarith
  have hCEb : |c * a| ≤ 2 * |qE| := by
    rw [abs_mul]
    have h := mul_le_mul hC1 hEb (abs_nonneg _) (by norm_num)
    linarith
  have hARb : |al * b| ≤ 2 * |qR| := by
    rw [abs_mul]
    have h := mul_le_mul hA1 hRb (abs_nonneg _) (by norm_num)
    linarith
  have hP1E : |p1 - 4 / 5 * qE| ≤ |qE| * (6 / 2 ^ 53) := by
    have t1 : |p1 - 4 / 5 * qE| ≤ |p1 - c * a| + |c * a - 4 / 5 * qE| :=
      abs_sub_le _ _ _
    have h2 := abs_nonneg qE
    linarith
  have hP2R : |p2 - 1 / 5 * qR| ≤ |qR| * (6 / 2 ^ 53) := by
    have t1 : |p2 - 1 / 5 * qR| ≤ |p2 - al * b| + |al * b - 1 / 5 * qR| :=
      abs_sub_le _ _ _
    have h2 := abs_nonneg qR
    linarith
  have hP1b : |p1| ≤ |qE| := by
    have t1 : |p1| ≤ |p1 - 4 / 5 * qE| + |4 / 5 * qE| := by
      calc |p1| = |(p1 - 4 / 5 * qE) + 4 / 5 * qE| := by ring_nf
      _ ≤ |p1 - 4 / 5 * qE| + |4 / 5 * qE| := abs_add _ _
    have t2 : |4 / 5 * qE| = 4 / 5 * |qE| := by
      rw [abs_mul]
      norm_num
    have h2 := abs_nonneg qE
    linarith
  have hP2b : |p2| ≤ |qR| := by
    have t1 : |p2| ≤ |p2 - 1 / 5 * qR| + |1 / 5 * qR| := by
      calc |p2| = |(p2 - 1 / 5 * qR) + 1 / 5 * qR| := by ring_nf
      _ ≤ |p2 - 1 / 5 * qR| + |1 / 5 * qR| := abs_add _ _
    have t2 : |1 / 5 * qR| = 1 / 5 * |qR| := by
      rw [abs_mul]
      norm_num
    have h2 := abs_nonneg qR
    linarith
  have hsum : |p1 + p2| ≤ |qE| + |qR| := by
    have t1 : |p1 + p2| ≤ |p1| + |p2| := abs_add _ _
    linarith
  have hS2 : |sv - (p1 + p2)| ≤ (|qE| + |qR|) / 2 ^ 53 := by
    linarith
  have hmid : |(p1 + p2) - (4 / 5 * qE + 1 / 5 * qR)|
      ≤ |qE| * (6 / 2 ^ 53) + |qR| * (6 / 2 ^ 53) := by
    have t1 : |(p1 + p2) - (4 / 5 * qE + 1 / 5 * qR)|
        = |(p1 - 4 / 5 * qE) + (p2 - 1 / 5 * qR)| := by ring_nf
    have t2 : |(p1 - 4 / 5 * qE) + (p2 - 1 / 5 * qR)|
        ≤ |p1 - 4 / 5 * qE| + |p2 - 1 / 5 * qR| := abs_add _ _
    linarith [t1 ▸ t2]
  have hdef : ((fp_ewma_step E R : ℤ) : ℚ)
      = ((fpTruncToInt (fpAdd (fpMul fp_one_minus_alpha (fpOfInt E))
          (fpMul fp_alpha (fpOfInt R))) : ℤ) : ℚ) := rfl
  rw [hdef]
  have t1 : |((fpTruncToInt (fpAdd (fpMul fp_one_minus_alpha (fpOfInt E))
        (fpMul fp_alpha (fpOfInt R))) : ℤ) : ℚ) - (4 / 5 * qE + 1 / 5 * qR)|
      ≤ |((fpTruncToInt (fpAdd (fpMul fp_one_minus_alpha (fpOfInt E))
        (fpMul fp_alpha (fpOfInt R))) : ℤ) : ℚ) - sv|
        + |sv - (4 / 5 * qE + 1 / 5 * qR)| := abs_sub_le _ _ _
  have t2 : |sv - (4 / 5 * qE + 1 / 5 * qR)|
      ≤ |sv - (p1 + p2)| + |(p1 + p2) - (4 / 5 * qE + 1 / 5 * qR)| :=
    abs_sub_le _ _ _
  have hEne := abs_nonneg qE
  have hRne := abs_nonneg qR
  linarith

/-! Claim theorems. -/

/-- Claim C1: a correction attempt occurs at most once per distinct
local-clock second. A tick whose local second equals
`last_discipline_sec` skips the discipline decision entirely (no events,
state is exactly the filter update), and two ticks delivered within the
same local second produce at most one discipline decision while both
filter updates still take place. -/
theorem tick_rate_limited (s : DiscState) (t1 t2 : Nat) (inp1 inp2 : TickInput) :
    (inp1.ts.tv_sec = s.last_discipline_sec →
      on_time_source_tick s t1 inp1
        = (update_ewma s (raw_offset_ns t1 inp1.ts), [])) ∧
    (inp2.ts.tv_sec = inp1.ts.tv_sec →
      countDecisions (on_time_source_tick s t1 inp1).snd +
        countDecisions
          (on_time_source_tick (on_time_source_tick s t1 inp1).fst t2 inp2).snd ≤ 1 ∧
      (on_time_source_tick (on_time_source_tick s t1 inp1).fst t2 inp2).fst.sample_count
        = s.sample_count + 2) := by
  constructor
  · intro h
    exact tick_skip s t1 inp1 h
  · intro h
    have h2 : inp2.ts.tv_sec = (on_time_source_tick s t1 inp1).fst.last_discipline_sec := by
      rw [tick_last]
      exact h
    constructor
    · rw [tick_skip _ t2 inp2 h2]
      have h0 : countDecisions ((update_ewma (on_time_source_tick s t1 inp1).fst
          (raw_offset_ns t2 inp2.ts), ([] : List DEvent)).snd) = 0 := rfl
      rw [h0]
      rw [Nat.add_zero]
      exact countDecisions_tick_le s t1 inp1
    · rw [tick_count, tick_count]
      omega

/-- Claim C1 witness: two ticks in local second 0 starting from the fresh
engine (whose `last_discipline_sec` is 0) update the filter twice but
produce no discipline decision at all. -/
theorem tick_rate_limited_witness :
    (on_time_source_tick initState 100
        { ts := ⟨0, 0⟩, step_ts := ⟨0, 0⟩, step_ok := true, slew_ok := true }
      = (update_ewma initState
          (raw_offset_ns 100 (⟨0, 0⟩ : Timespec)), [])) ∧
    (countDecisions (on_time_source_tick initState 100
        { ts := ⟨0, 0⟩, step_ts := ⟨0, 0⟩, step_ok := true, slew_ok := true }).snd +
      countDecisions (on_time_source_tick
        (on_time_source_tick initState 100
          { ts := ⟨0, 0⟩, step_ts := ⟨0, 0⟩, step_ok := true, slew_ok := true }).fst 200
        { ts := ⟨0, 0⟩, step_ts := ⟨0, 0⟩, step_ok := true, slew_ok := true }).snd ≤ 1 ∧
      (on_time_source_tick
        (on_time_source_tick initState 100
          { ts := ⟨0, 0⟩, step_ts := ⟨0, 0⟩, step_ok := true, slew_ok := true }).fst 200
        { ts := ⟨0, 0⟩, step_ts := ⟨0, 0⟩, step_ok := true, slew_ok := true }).fst.sample_count
        = initState.sample_count + 2) :=
  ⟨(tick_rate_limited initState 100 200
      ⟨⟨0, 0⟩, ⟨0, 0⟩, true, true⟩ ⟨⟨0, 0⟩, ⟨0, 0⟩, true, true⟩).1 rfl,
   (tick_rate_limited initState 100 200
      ⟨⟨0, 0⟩, ⟨0, 0⟩, true, true⟩ ⟨⟨0, 0⟩, ⟨0, 0⟩, true, true⟩).2 rfl⟩

/-- Claim C2: when the discipline decision runs, the branch is decided by
a strictly-greater-than comparison of the absolute filtered estimate
against 3,000,000 ns: an estimate of absolute value exactly 3,000,000
takes the SLEW path (and no step write is issued), while an absolute
value of 3,000,001 or more takes the STEP path (and no slew request is
issued). -/
theorem discipline_branch_threshold (s : DiscState) (c : Int) (sts : Timespec)
    (o1 o2 : Bool) (h : c ≠ s.last_discipline_sec) :
    (|s.ewma_offset_ns| = 3000000 →
      DEvent.slewRequest (c_div s.ewma_offset_ns 1000)
          ∈ (discipline_if_needed s c sts o1 o2).snd ∧
      ∀ w, DEvent.stepWrite w ∉ (discipline_if_needed s c sts o1 o2).snd) ∧
    (3000000 < |s.ewma_offset_ns| →
      (∃ w, DEvent.stepWrite w ∈ (discipline_if_needed s c sts o1 o2).snd) ∧
      ∀ u, DEvent.slewRequest u ∉ (discipline_if_needed s c sts o1 o2).snd) := by
  constructor
  · intro he
    have hb : ¬ 3 * 1000000 < |s.ewma_offset_ns| := by
      rw [he]
      norm_num
    rw [discipline_run_slew _ _ sts o1 _ h hb, slew_clock_snd]
    constructor
    · simp
    · intro w
      cases o2 <;> simp
  · intro hbig
    have hb : 3 * 1000000 < |s.ewma_offset_ns| := by linarith
    rw [discipline_run_step _ _ _ _ o2 h hb, step_clock_snd]
    constructor
    · exact ⟨_, List.mem_cons_of_mem _ (List.mem_cons_self _ _)⟩
    · intro u
      cases o1 <;> simp

/-- Claim C2 witness: with `last_discipline_sec = 0` and current second 1,
a filtered estimate of exactly 3,000,000 ns issues a slew request and an
estimate of 3,000,001 ns issues a step write. -/
theorem discipline_branch_threshold_witness :
    (DEvent.slewRequest (c_div 3000000 1000)
        ∈ (discipline_if_needed ⟨3000000, 5, 0⟩ 1 ⟨0, 0⟩ true true).snd) ∧
    (∃ w, DEvent.stepWrite w
        ∈ (discipline_if_needed ⟨3000001, 5, 0⟩ 1 ⟨0, 0⟩ true true).snd) :=
  ⟨((discipline_branch_threshold ⟨3000000, 5, 0⟩ 1 ⟨0, 0⟩ true true
      (by decide)).1 (by decide)).1,
   ((discipline_branch_threshold ⟨3000001, 5, 0⟩ 1 ⟨0, 0⟩ true true
      (by decide)).2 (by decide)).1⟩

/-- Claim C3: the STEP branch always resets the filtered estimate to zero,
whether or not the absolute clock write succeeded, so the next tick's
filter update starts from an estimate of 0 (a non-first sample then
produces `c_div R 5`, independent of the pre-step estimate). -/
theorem step_resets_estimate (s : DiscState) (ts : Timespec) (ok : Bool) (R : Int) :
    (step_clock s ts ok).fst.ewma_offset_ns = 0 ∧
    ((step_clock s ts ok).fst.sample_count ≠ 0 →
      (update_ewma (step_clock s ts ok).fst R).ewma_offset_ns = c_div R 5) := by
  rw [step_clock_fst]
  constructor
  · rfl
  · intro h
    unfold update_ewma
    rw [if_neg h]
    simp only []
    norm_num

/-- Claim C3 witness: a failed step from estimate 5,000,000 still resets
the estimate to zero, and the next filter update of raw offset 77 yields
`c_div 77 5`, not a value involving 5,000,000. -/
theorem step_resets_estimate_witness :
    (step_clock ⟨5000000, 2, 1⟩ ⟨10, 0⟩ false).fst.ewma_offset_ns = 0 ∧
    (update_ewma (step_clock ⟨5000000, 2, 1⟩ ⟨10, 0⟩ false).fst 77).ewma_offset_ns
      = c_div 77 5 :=
  ⟨(step_resets_estimate ⟨5000000, 2, 1⟩ ⟨10, 0⟩ false 77).1,
   (step_resets_estimate ⟨5000000, 2, 1⟩ ⟨10, 0⟩ false 77).2 (by decide)⟩

/-- Claim C4: the SLEW branch leaves the engine state, and in particular
the filtered estimate, completely unchanged: only subsequent ticks'
filter updates modify `ewma_offset_ns`. -/
theorem slew_preserves_estimate (s : DiscState) (ok : Bool) :
    (slew_clock s ok).fst = s ∧
    (slew_clock s ok).fst.ewma_offset_ns = s.ewma_offset_ns :=
  ⟨rfl, rfl⟩

/-- Claim C5: on the first sample ever observed (`sample_count = 0`) the
filtered estimate is set exactly to the raw offset, with no smoothing. -/
theorem cold_start_estimate (s : DiscState) (X : Int) (h : s.sample_count = 0) :
    (update_ewma s X).ewma_offset_ns = X := by
  unfold update_ewma
  rw [if_pos h]

/-- Claim C5 witness: the fresh engine's first raw offset of 123,456,789 ns
becomes the estimate exactly. -/
theorem cold_start_estimate_witness :
    (update_ewma initState 123456789).ewma_offset_ns = 123456789 :=
  cold_start_estimate initState 123456789 rfl

set_option maxRecDepth 8192 in
/-- Claim C6 counterexample: with estimate 2^62 ns and raw offset 0, the
bit-accurate filter update returns 3689348814741910528, which differs
from 0.8 * 2^62 + 0.2 * 0 by 204.8 ns: the updated estimate is not
within 1 ns of `0.8 * E0 + 0.2 * R` for every non-first sample. -/
theorem smoothing_fp_counterexample :
    ¬ (|((fp_update_ewma ⟨2 ^ 62, 1, 0⟩ 0).ewma_offset_ns : ℚ)
        - ((1 - ewma_alpha) * ((2 ^ 62 : Int) : ℚ) + ewma_alpha * ((0 : Int) : ℚ))|
        < 1) := by
  intro hlt
  rw [show (fp_update_ewma ⟨2 ^ 62, 1, 0⟩ 0).ewma_offset_ns
      = 3689348814741910528 from by decide] at hlt
  have heq : ((1 : ℚ) - ewma_alpha) * ((2 ^ 62 : Int) : ℚ)
      + ewma_alpha * ((0 : Int) : ℚ) = 18446744073709551616 / 5 := by
    unfold ewma_alpha
    push_cast
    norm_num
  rw [heq] at hlt
  rw [abs_of_pos (by norm_num)] at hlt
  norm_num at hlt

/-- Claim C6 (amended): for a non-first sample with int64 estimate `E0`
and int64 raw offset `R`, one bit-accurate filter update produces an
estimate within `1 + (|E0| + |R|) / 2^50` ns of `0.8 * E0 + 0.2 * R`:
1 ns from the truncating cast plus the binary64 rounding error, which
grows with the operand magnitudes and is not bounded by 1 ns absolutely
(see the counterexample). -/
theorem smoothing_fp_bound (s : DiscState) (R : Int) (h : s.sample_count ≠ 0)
    (hE : s.ewma_offset_ns.natAbs < 2 ^ 63) (hR : R.natAbs < 2 ^ 63) :
    |((fp_update_ewma s R).ewma_offset_ns : ℚ)
      - ((1 - ewma_alpha) * (s.ewma_offset_ns : ℚ) + ewma_alpha * (R : ℚ))|
      < 1 + (|(s.ewma_offset_ns : ℚ)| + |(R : ℚ)|) / 2 ^ 50 := by
  unfold fp_update_ewma
  rw [if_neg h]
  simp only []
  have heq : (1 - ewma_alpha) * (s.ewma_offset_ns : ℚ) + ewma_alpha * (R : ℚ)
      = (4 / 5) * (s.ewma_offset_ns : ℚ) + (1 / 5) * (R : ℚ) := by
    unfold ewma_alpha
    ring
  rw [heq]
  exact fp_step_err s.ewma_offset_ns R hE hR

/-- Claim C6 witness: from estimate 100 and raw offset 7 the updated
estimate lies within the stated bound of 0.8 * 100 + 0.2 * 7 = 81.4. -/
theorem smoothing_fp_bound_witness :
    |((fp_update_ewma ⟨100, 1, 0⟩ 7).ewma_offset_ns : ℚ)
      - ((1 - ewma_alpha) * (((⟨100, 1, 0⟩ : DiscState).ewma_offset_ns : ℤ) : ℚ)
          + ewma_alpha * ((7 : Int) : ℚ))|
      < 1 + (|(((⟨100, 1, 0⟩ : DiscState).ewma_offset_ns : ℤ) : ℚ)|
          + |((7 : Int) : ℚ)|) / 2 ^ 50 :=
  smoothing_fp_bound ⟨100, 1, 0⟩ 7 (by decide) (by decide) (by decide)

set_option maxRecDepth 8192 in
/-- Claim C7 counterexample: at the reachable raw offset
X = 5000000000001000000 ns (a multiple of 10^6, so producible as
`offset_ms * 1000000` with offset_ms = 5000000000001), the bit-accurate
filter update of estimate X with offset X returns 5000000000001001472,
not X: X is not an exact fixed point of the filter update for every
int64 value X. -/
theorem fixed_point_fp_counterexample :
    (fp_update_ewma ⟨5000000000001000000, 1, 0⟩ 5000000000001000000).ewma_offset_ns
      = 5000000000001001472 ∧
    (5000000000001001472 : Int) ≠ 5000000000001000000 := by
  constructor
  · decide
  · decide

set_option maxRecDepth 8192 in
/-- Claim C7 (amended): a constant raw offset X is not an exact fixed
point of the bit-accurate filter update for every int64 X (see the
counterexample); instead every update of an estimate X with the same
offset X lands within `1 + |X| / 2^49` ns of X, and at magnitudes the
double pipeline reproduces exactly, such as X = 10^6 and
X = -3000000000, the fixed point is exact. -/
theorem fixed_point_fp_bound (s : DiscState) (X : Int) (h : s.sample_count ≠ 0)
    (hsX : s.ewma_offset_ns = X) (hX : X.natAbs < 2 ^ 63) :
    |((fp_update_ewma s X).ewma_offset_ns : ℚ) - (X : ℚ)|
        < 1 + |(X : ℚ)| / 2 ^ 49 ∧
    fp_ewma_step 1000000 1000000 = 1000000 ∧
    fp_ewma_step (-3000000000) (-3000000000) = -3000000000 := by
  refine ⟨?_, by decide, by decide⟩
  unfold fp_update_ewma
  rw [if_neg h]
  simp only []
  rw [hsX]
  have hh := fp_step_err X X hX hX
  rw [show (4 / 5 : ℚ) * (X : ℚ) + (1 / 5 : ℚ) * (X : ℚ) = (X : ℚ) by ring] at hh
  rw [show (|(X : ℚ)| + |(X : ℚ)|) / 2 ^ 50 = |(X : ℚ)| / 2 ^ 49 by ring] at hh
  exact hh

/-- Claim C7 witness: an estimate of 42 updated with raw offset 42 stays
within the stated bound of 42 (it is in fact exactly 42), and the two
sample magnitudes are exact fixed points. -/
theorem fixed_point_fp_bound_witness :
    (|((fp_update_ewma ⟨42, 3, 0⟩ 42).ewma_offset_ns : ℚ) - ((42 : Int) : ℚ)|
        < 1 + |((42 : Int) : ℚ)| / 2 ^ 49) ∧
    fp_ewma_step 1000000 1000000 = 1000000 ∧
    fp_ewma_step (-3000000000) (-3000000000) = -3000000000 :=
  fixed_point_fp_bound ⟨42, 3, 0⟩ 42 (by decide) rfl (by decide)

/-- Claim C8 counterexample: a tick whose timestamp (2^63 ms) overflows
the signed 64-bit nanosecond conversion is not rejected: the engine state
changes (the sample is absorbed into the filter), contradicting the claim
that such a tick leaves all state unchanged. -/
theorem overflow_tick_changes_state :
    (on_time_source_tick initState (2 ^ 63)
        { ts := ⟨0, 0⟩, step_ts := ⟨0, 0⟩, step_ok := false, slew_ok := false }).fst
      ≠ initState ∧
    (on_time_source_tick initState (2 ^ 63)
        { ts := ⟨0, 0⟩, step_ts := ⟨0, 0⟩, step_ok := false, slew_ok := false }).fst.sample_count
      = 1 := by
  constructor
  · decide
  · decide

/-- Claim C8 amended: `on_time_source_tick` performs no input validation
and has no failure channel: every tick, including one whose millisecond
timestamp overflows the nanosecond conversion (the arithmetic wraps
instead), unconditionally runs the filter update, incrementing
`sample_count`. -/
theorem tick_never_rejected (s : DiscState) (t : Nat) (inp : TickInput) :
    (on_time_source_tick s t inp).fst.sample_count = s.sample_count + 1 :=
  tick_count s t inp

/-- Claim C9: because the constructor initialises `last_discipline_sec`
to 0, the very first tick runs a discipline decision whenever its local
second is nonzero (no warm-up period), and if the first raw offset
exceeds 3,000,000 ns in absolute value a STEP is issued immediately. -/
theorem first_tick_disciplines (t : Nat) (inp : TickInput)
    (h : inp.ts.tv_sec ≠ 0) :
    initState.last_discipline_sec = 0 ∧
    countDecisions (on_time_source_tick initState t inp).snd = 1 ∧
    (3000000 < |raw_offset_ns t inp.ts| →
      ∃ w, DEvent.stepWrite w ∈ (on_time_source_tick initState t inp).snd) := by
  have hewma : (update_ewma initState (raw_offset_ns t inp.ts)).ewma_offset_ns
      = raw_offset_ns t inp.ts := cold_start0 _ _ rfl
  have hne : inp.ts.tv_sec
      ≠ (update_ewma initState (raw_offset_ns t inp.ts)).last_discipline_sec := by
    rw [update_ewma_last]
    exact h
  refine ⟨rfl, ?_, ?_⟩
  · unfold on_time_source_tick
    by_cases hb : 3 * 1000000
        < |(update_ewma initState (raw_offset_ns t inp.ts)).ewma_offset_ns|
    · rw [discipline_run_step _ _ _ _ inp.slew_ok hne hb]
      rw [countDecisions_cons_log, countDecisions_step_snd]
    · rw [discipline_run_slew _ _ _ inp.step_ok _ hne hb]
      rw [countDecisions_cons_log, countDecisions_slew_snd]
  · intro hbig
    unfold on_time_source_tick
    have hb : 3 * 1000000
        < |(update_ewma initState (raw_offset_ns t inp.ts)).ewma_offset_ns| := by
      rw [hewma]
      linarith
    rw [discipline_run_step _ _ _ _ inp.slew_ok hne hb, step_clock_snd]
    exact ⟨_, List.mem_cons_of_mem _ (List.mem_cons_self _ _)⟩

/-- Claim C9 witness: the first tick ever, carrying source time 0 while
the local clock reads second 1 (raw offset -1,000,000,000 ns), runs
exactly one discipline decision and issues a STEP write. -/
theorem first_tick_disciplines_witness :
    countDecisions (on_time_source_tick initState 0
        { ts := ⟨1, 0⟩, step_ts := ⟨0, 5⟩, step_ok := false, slew_ok := false }).snd = 1 ∧
    (∃ w, DEvent.stepWrite w ∈ (on_time_source_tick initState 0
        { ts := ⟨1, 0⟩, step_ts := ⟨0, 5⟩, step_ok := false, slew_ok := false }).snd) :=
  ⟨(first_tick_disciplines 0 ⟨⟨1, 0⟩, ⟨0, 5⟩, false, false⟩ (by decide)).2.1,
   (first_tick_disciplines 0 ⟨⟨1, 0⟩, ⟨0, 5⟩, false, false⟩ (by decide)).2.2 (by decide)⟩

/-- Claim C10: a reachable state with a sufficiently negative filtered
estimate makes the STEP branch pass a `timespec` with a negative
`tv_nsec` (C's % keeps the dividend's sign) to the absolute clock write,
with no guard preventing it: on the very first tick, source time 0
against a local read of second 1 yields estimate -1,000,000,000 ns, and
the in-step clock read (0 s, 5 ns) produces a step write whose target has
`tv_nsec = -999,999,995 < 0`. -/
theorem step_negative_tv_nsec_reachable :
    DEvent.stepWrite { tv_sec := 0, tv_nsec := -999999995 }
        ∈ (on_time_source_tick initState 0
            { ts := ⟨1, 0⟩, step_ts := ⟨0, 5⟩, step_ok := false, slew_ok := false }).snd ∧
    (-999999995 : Int) < 0 := by
  constructor
  · decide
  · decide

end ClockDiscipliner
